import Mathlib

/-!
Verification development for the `extract-text` tool
(`src/workspace/extract-text.py`): a converter from MHTML, DOCX, Markdown
and HTML documents to plain-text files.

The embedding models the program at the boundary of its external parsing
libraries, following the interfaces the program relies on:

* BeautifulSoup's `get_text(separator, strip=True)` over a parsed markup
  tree (`HtmlNode`).  Since bs4 4.9.0 the strings directly contained in
  `script` and `style` elements are `Script`/`Stylesheet` navigable
  strings, which `get_text` on the document skips; `strippedStrings`
  reflects that, together with `strip=True` (each string trimmed, empty
  strings dropped).
* The stdlib `email` package with `policy.default`: `Message.walk` is the
  pre-order traversal yielding a part before its sub-parts;
  `get_content` on a text part decodes the payload with
  `errors='replace'` (so a known charset always yields a string, with
  undecodable bytes replaced), and raises (`LookupError`) when the
  declared charset names no known codec; `get_content` on a multipart
  container also raises.
* `python-docx`'s `Document.paragraphs`, modelled as the list of
  paragraph texts.
* `os.path.splitext` with its leading-dot rule, over POSIX paths.

File contents are modelled at their parsed views (`FileContent`): the
dispatcher `process_file` never inspects raw bytes, only the extension,
and each extractor only its own library's parse.
-/

namespace ExtractText

/-! ## Markup trees and BeautifulSoup `get_text` -/

/-- A node of the tree `BeautifulSoup(..., "html.parser")` produces:
either a navigable string or an element with a tag name and children. -/
inductive HtmlNode where
| text (s : String)
| elem (tag : String) (children : List HtmlNode)
deriving Repr

/-- Python `str.strip()`: drop leading and trailing whitespace. -/
def pyStrip (s : String) : String :=
  ⟨((s.data.dropWhile Char.isWhitespace).reverse.dropWhile Char.isWhitespace).reverse⟩

mutual

/-- The strings `get_text(separator, strip=True)` collects from one
node: a navigable string trimmed (dropped when empty after trimming);
strings directly inside `script`/`style` elements are
`Script`/`Stylesheet` containers that `get_text` on the document skips
(bs4 ≥ 4.9.0; html.parser treats their content as raw text). -/
def strippedStringsN : HtmlNode → List String
| .text s => if pyStrip s = "" then [] else [pyStrip s]
| .elem tag cs =>
  if tag = "script" ∨ tag = "style" then [] else strippedStrings cs

/-- The strings `get_text(separator, strip=True)` collects from a
forest, in document order. -/
def strippedStrings : List HtmlNode → List String
| [] => []
| n :: ns => strippedStringsN n ++ strippedStrings ns

end

/-- `soup.get_text(separator=sep, strip=True)`. -/
def get_text (sep : String) (doc : List HtmlNode) : String :=
  String.intercalate sep (strippedStrings doc)

mutual

/-- Remove a node when it is a `script`/`style` element, and every such
element below it (the `decompose()` idiom): used to state that their
content never reaches the output. -/
def removeScriptStyleN : HtmlNode → List HtmlNode
| .text s => [.text s]
| .elem tag cs =>
  if tag = "script" ∨ tag = "style" then []
  else [.elem tag (removeScriptStyle cs)]

/-- Remove every `script` and `style` element from a forest. -/
def removeScriptStyle : List HtmlNode → List HtmlNode
| [] => []
| n :: ns => removeScriptStyleN n ++ removeScriptStyle ns

end

/-! ## MIME messages and the MHTML extractor -/

/-- A leaf MIME part as the `email` library presents it to this program:
its content type, whether its declared charset names a known codec, the
best-effort decoded payload text (undecodable bytes already replaced,
per `errors='replace'`), and the tree BeautifulSoup would produce from
that text (used only for `text/html` parts). -/
structure Leaf where
  contentType : String
  charsetKnown : Bool
  text : String
  doc : List HtmlNode
deriving Repr

/-- A MIME message: a leaf part or a multipart container. -/
inductive MimeMsg where
| part (l : Leaf)
| multipart (contentType : String) (children : List MimeMsg)
deriving Repr

/-- `msg.get_content_type()`. -/
def contentTypeOf : MimeMsg → String
| .part l => l.contentType
| .multipart ct _ => ct

/-- `msg.is_multipart()`. -/
def isMultipart : MimeMsg → Bool
| .part _ => false
| .multipart _ _ => true

/-- `part.get_content()` for a text part: the decoded string when the
charset is known (`errors='replace'` never raises then), an exception
when the charset is unknown (`LookupError`) or the part is a multipart
container (no content manager for `multipart`). -/
def get_content : MimeMsg → Except Unit String
| .part l => if l.charsetKnown then .ok l.text else .error ()
| .multipart _ _ => .error ()

/-- `BeautifulSoup(part.get_content(), "html.parser")`: the parsed tree
of an HTML part's decoded content, or the exception `get_content`
raised. -/
def get_soup : MimeMsg → Except Unit (List HtmlNode)
| .part l => if l.charsetKnown then .ok l.doc else .error ()
| .multipart _ _ => .error ()

mutual

/-- `msg.walk()`: pre-order traversal, a part before its sub-parts. -/
def walk : MimeMsg → List MimeMsg
| .part l => [.part l]
| .multipart ct cs => .multipart ct cs :: walkList cs

def walkList : List MimeMsg → List MimeMsg
| [] => []
| m :: ms => walk m ++ walkList ms

end

/-- The body of the `for part in msg.walk()` loop (extract-text.py
lines 39-46), with the loop's exception behaviour: the first raising
part aborts the whole collection. -/
def collectParts : List MimeMsg → Except Unit (List String)
| [] => .ok []
| q :: qs =>
  if contentTypeOf q = "text/html" then
    match get_soup q with
    | .error e => .error e
    | .ok doc =>
      match collectParts qs with
      | .error e => .error e
      | .ok ts => .ok (get_text "\n" doc :: ts)
  else if contentTypeOf q = "text/plain" then
    match get_content q with
    | .error e => .error e
    | .ok s =>
      match collectParts qs with
      | .error e => .error e
      | .ok ts => .ok (s :: ts)
  else collectParts qs

/-- `extract_text_from_mhtml` after the parse step (lines 36-57):
`none` is a parse failure (lines 32-34).  Any exception while walking
or decoding yields the empty string (lines 55-57). -/
def extract_text_from_mhtml : Option MimeMsg → String
| none => ""
| some m =>
  let r : Except Unit (List String) :=
    if isMultipart m then collectParts (walk m)
    else if contentTypeOf m = "text/html" then
      match get_soup m with
      | .error e => .error e
      | .ok doc => .ok [get_text "\n" doc]
    else
      match get_content m with
      | .error e => .error e
      | .ok s => .ok [s]
  match r with
  | .ok parts => String.intercalate "\n\n" parts
  | .error _ => ""

/-- What a single visited leaf contributes to `text_parts`:
HTML stripped with block separation, plain text verbatim, any other
content type nothing. -/
def collectLeaf (l : Leaf) : List String :=
  if l.contentType = "text/html" then [get_text "\n" l.doc]
  else if l.contentType = "text/plain" then [l.text]
  else []

/-- Contribution of a walked part: containers contribute nothing. -/
def collectTop : MimeMsg → List String
| .part l => collectLeaf l
| .multipart _ _ => []

/-- The leaf view of a part, when it is one. -/
def leafOf : MimeMsg → Option Leaf
| .part l => some l
| .multipart _ _ => none

/-- The leaf parts of a message, in pre-order traversal order. -/
def leaves (m : MimeMsg) : List Leaf :=
  (walk m).filterMap leafOf

/-- A part the collection loop handles without raising: a leaf with a
known charset, or a container whose content type is not a text type. -/
def goodPart : MimeMsg → Bool
| .part l => l.charsetKnown
| .multipart ct _ => !(ct == "text/html") && !(ct == "text/plain")

/-- A part on which the collection loop raises: a text-typed part whose
`get_content` fails (unknown charset, or a text-typed container). -/
def badPart : MimeMsg → Bool
| .part l => (l.contentType == "text/html" || l.contentType == "text/plain") && !l.charsetKnown
| .multipart ct _ => (ct == "text/html") || (ct == "text/plain")

/-- Erase `script`/`style` content from a leaf's parsed view. -/
def scrubLeaf (l : Leaf) : Leaf :=
  { l with doc := removeScriptStyle l.doc }

mutual

/-- Erase `script`/`style` content from every leaf of a message. -/
def scrubMsg : MimeMsg → MimeMsg
| .part l => .part (scrubLeaf l)
| .multipart ct cs => .multipart ct (scrubList cs)

def scrubList : List MimeMsg → List MimeMsg
| [] => []
| m :: ms => scrubMsg m :: scrubList ms

end

/-- Erase `script`/`style` content from a walked part's own leaf view. -/
def scrubTop : MimeMsg → MimeMsg
| .part l => .part (scrubLeaf l)
| .multipart ct cs => .multipart ct (scrubList cs)

/-! ## The DOCX, Markdown and HTML extractors -/

/-- `extract_text_from_docx` after `Document(file_path)` (lines 66-72):
`none` is an open/parse failure, otherwise the list of paragraph texts.
Paragraphs whose stripped text is empty are dropped; the kept
paragraphs keep their original text (line 68). -/
def extract_text_from_docx : Option (List String) → String
| none => ""
| some paras => String.intercalate "\n" (paras.filter fun t => !(pyStrip t == ""))

/-- `extract_text_from_md` after reading (with `errors='replace'`, which
never fails) and rendering the Markdown to HTML (lines 82-86): the
input is the parsed tree of the rendered HTML. -/
def extract_text_from_md (doc : List HtmlNode) : String :=
  get_text "\n" doc

/-- `extract_text_from_html` after reading (with `errors='replace'`) and
parsing (lines 94-97): the input is the parsed tree of the file. -/
def extract_text_from_html (doc : List HtmlNode) : String :=
  get_text "\n" doc

/-! ## Paths and `os.path.splitext` -/

/-- A POSIX path, as its character list. -/
abbrev Path := List Char

/-- Split a list at the LAST occurrence of `c`: `breakLast c l = some
(d, b)` means `l = d ++ c :: b` with no `c` in `b`; `none` means no
occurrence. -/
def breakLast (c : Char) : Path → Option (Path × Path)
| [] => none
| x :: xs =>
  match breakLast c xs with
  | some (d, b) => some (x :: d, b)
  | none => if x = c then some ([], xs) else none

/-- `os.path.splitext` on a bare file name: skip the leading run of
dots, then split at the last dot of the remainder (cpython
`genericpath._splitext`). -/
def splitBase (b : Path) : Path × Path :=
  let dots := b.takeWhile (fun c => c = '.')
  let rest := b.dropWhile (fun c => c = '.')
  match breakLast '.' rest with
  | none => (b, [])
  | some (r, e) => (dots ++ r, '.' :: e)

/-- `os.path.splitext`: the extension is computed on the part after the
last `/`. -/
def splitext (p : Path) : Path × Path :=
  match breakLast '/' p with
  | none => splitBase p
  | some (d, b) =>
    let (r, e) := splitBase b
    (d ++ '/' :: r, e)

/-- `os.path.basename`-style last path component (what `os.walk` yields
as the file name). -/
def basename (p : Path) : Path :=
  match breakLast '/' p with
  | none => p
  | some (_, b) => b

/-- `str.lower()` (ASCII case, which is all the extensions use). -/
def lowerP (p : Path) : Path := p.map Char.toLower

/-- The supported extensions, in the source's order (line 156). -/
def supportedExts : List Path :=
  [".mhtml".toList, ".docx".toList, ".md".toList, ".html".toList]

/-- `filename.lower().endswith(supported_exts)` (line 141). -/
def supportedSuffix (p : Path) : Bool :=
  supportedExts.any fun e => e.isSuffixOf (lowerP (basename p))

/-! ## The file system, dispatcher and batch driver -/

/-- A file's content, at the parsed view its extractor consumes. `txt`
is plain text (output files in particular). -/
inductive FileContent where
| txt (s : String)
| mhtmlData (m : Option MimeMsg)
| docxData (d : Option (List String))
| mdData (doc : List HtmlNode)
| htmlData (doc : List HtmlNode)

instance : Inhabited FileContent := ⟨.txt ""⟩

/-- The directory the tool works in: paths with their contents.  Later
entries are shadowed by earlier ones. -/
structure FS where
  files : List (Path × FileContent)

/-- `os.path.exists`. -/
def FS.exists (fs : FS) (p : Path) : Bool :=
  fs.files.any fun e => e.1 == p

/-- Read a file's (parsed) content. -/
def FS.read (fs : FS) (p : Path) : FileContent :=
  match fs.files.find? (fun e => e.1 == p) with
  | some e => e.2
  | none => .txt ""

/-- `open(p, "w")` + write: create or overwrite. -/
def FS.write (fs : FS) (p : Path) (c : FileContent) : FS :=
  ⟨(p, c) :: fs.files⟩

/-- View a file as the MHTML extractor's parse step sees it: anything
that is not an MHTML parse is a parse failure. -/
def readMhtml : FileContent → Option MimeMsg
| .mhtmlData m => m
| _ => none

/-- View a file as `Document(path)` sees it. -/
def readDocx : FileContent → Option (List String)
| .docxData d => d
| _ => none

/-- View a file as rendered-then-parsed Markdown. -/
def readMdDoc : FileContent → List HtmlNode
| .mdData doc => doc
| _ => []

/-- View a file as parsed HTML. -/
def readHtmlDoc : FileContent → List HtmlNode
| .htmlData doc => doc
| _ => []

/-- The messages `process_file` prints. -/
inductive LogMsg where
| missing (p : Path)
| skip (p : Path) (out : Path)
| processing (kind : String) (p : Path)
| written (out : Path)
| unsupported (p : Path)
deriving Repr, DecidableEq

/-- `os.path.splitext(p)[0] + ".txt"` (line 108). -/
def outPath (p : Path) : Path := (splitext p).1 ++ ".txt".toList

/-- `os.path.splitext(p)[1].lower()` (line 107). -/
def extLower (p : Path) : Path := lowerP (splitext p).2

/-- `process_file` (lines 102-134): existence check, skip when the output
exists, dispatch on the lowercased extension, write the extracted text
(writes in this model always succeed). -/
def process_file (fs : FS) (p : Path) : FS × List LogMsg :=
  if fs.exists p = false then (fs, [.missing p])
  else if fs.exists (outPath p) = true then (fs, [.skip p (outPath p)])
  else if extLower p = ".mhtml".toList then
    let t := extract_text_from_mhtml (readMhtml (fs.read p))
    (fs.write (outPath p) (.txt t), [.processing "MHTML" p, .written (outPath p)])
  else if extLower p = ".docx".toList then
    let t := extract_text_from_docx (readDocx (fs.read p))
    (fs.write (outPath p) (.txt t), [.processing "DOCX" p, .written (outPath p)])
  else if extLower p = ".md".toList then
    let t := extract_text_from_md (readMdDoc (fs.read p))
    (fs.write (outPath p) (.txt t), [.processing "Markdown" p, .written (outPath p)])
  else if extLower p = ".html".toList then
    let t := extract_text_from_html (readHtmlDoc (fs.read p))
    (fs.write (outPath p) (.txt t), [.processing "HTML" p, .written (outPath p)])
  else (fs, [.unsupported p])

/-- `find_supported_files` (lines 136-143): every file whose lowercased
name ends in a supported extension, in directory order. -/
def find_supported_files (fs : FS) : List Path :=
  (fs.files.map fun e => e.1).filter supportedSuffix

/-- The batch loop (lines 174-175): process each found file in order. -/
def runBatch : FS → List Path → FS × List LogMsg
| fs, [] => (fs, [])
| fs, p :: ps =>
  let r := process_file fs p
  let rest := runBatch r.1 ps
  (rest.1, r.2 ++ rest.2)

/-- A log message meaning an extraction was performed (or its output
written). -/
def isExtractionMsg : LogMsg → Bool
| .processing _ _ => true
| .written _ => true
| _ => false

/-- A path on which `process_file` can no longer perform an extraction:
its input is absent, or its output exists, or its extension is
unsupported. -/
def settled (fs : FS) (p : Path) : Prop :=
  fs.exists p = false ∨ fs.exists (outPath p) = true ∨ extLower p ∉ supportedExts

/-! ## Concrete instances -/

/-- Parse of `<p>Hello</p><p>World</p>`. -/
def helloDoc : List HtmlNode := [.elem "p" [.text "Hello"], .elem "p" [.text "World"]]

/-- A synthetic two-part MHTML message: one HTML part containing
`<p>Hello</p><p>World</p>`, one plain part containing `Raw`. -/
def exMsg1 : MimeMsg :=
  .multipart "multipart/related"
    [.part ⟨"text/html", true, "<p>Hello</p><p>World</p>", helloDoc⟩,
     .part ⟨"text/plain", true, "Raw", []⟩]

/-- A multipart message whose middle part declares an unknown charset,
between two decodable parts. -/
def exMsg6 : MimeMsg :=
  .multipart "multipart/mixed"
    [.part ⟨"text/plain", true, "A", []⟩,
     .part ⟨"text/plain", false, "B", []⟩,
     .part ⟨"text/plain", true, "C", []⟩]

/-- A directory holding `a.md` whose output `a.txt` already exists. -/
def fs2 : FS := ⟨[("a.md".toList, .mdData [.text "new"]), ("a.txt".toList, .txt "old")]⟩

/-- A directory holding an unparsable `a.mhtml`. -/
def fs5 : FS := ⟨[("a.mhtml".toList, .mhtmlData none)]⟩

/-- A directory holding an unsupported `a.pdf`. -/
def fs7 : FS := ⟨[("a.pdf".toList, .txt "pdf")]⟩

/-- A directory holding only a regular file named `.md`. -/
def fs8 : FS := ⟨[(".md".toList, .mdData [.text "hidden"])]⟩

/-- A directory holding a single well-named Markdown file `b.md`. -/
def fs8b : FS := ⟨[("b.md".toList, .mdData [.text "hi"])]⟩

/-- A directory holding `a.md` and `a.html`, which share the output
path `a.txt`. -/
def fs9 : FS :=
  ⟨[("a.md".toList, .mdData [.text "from md"]),
    ("a.html".toList, .htmlData [.text "from html"])]⟩

/-- A directory holding only a regular file named `.mhtml`. -/
def fs10 : FS := ⟨[(".mhtml".toList, .mhtmlData none)]⟩

/-! ## Helper lemmas -/

theorem FS.exists_write_self (fs : FS) (p : Path) (c : FileContent) :
    (fs.write p c).exists p = true := by
  simp [FS.exists, FS.write]

theorem FS.exists_write_mono (fs : FS) (p q : Path) (c : FileContent)
    (h : fs.exists q = true) : (fs.write p c).exists q = true := by
  simp [FS.exists, FS.write] at h ⊢
  exact Or.inr h

theorem FS.exists_write_ne (fs : FS) (p q : Path) (c : FileContent)
    (h : q ≠ p) : (fs.write p c).exists q = fs.exists q := by
  have h' : ¬ (p = q) := fun hh => h hh.symm
  simp [FS.exists, FS.write, h']

theorem FS.read_write_self (fs : FS) (p : Path) (c : FileContent) :
    (fs.write p c).read p = c := by
  simp [FS.read, FS.write]

/-! ## Path lemmas -/

theorem breakLast_some (c : Char) : ∀ (l d b : Path),
    breakLast c l = some (d, b) → l = d ++ c :: b
| [], d, b, h => by simp [breakLast] at h
| x :: xs, d, b, h => by
  unfold breakLast at h
  cases hx : breakLast c xs with
  | some db =>
    obtain ⟨d', b'⟩ := db
    rw [hx] at h
    simp at h
    obtain ⟨h1, h2⟩ := h
    subst h1
    subst h2
    simp [breakLast_some c xs d' b' hx]
  | none =>
    rw [hx] at h
    by_cases hxc : x = c
    · simp [hxc] at h
      obtain ⟨h1, h2⟩ := h
      subst h1
      subst h2
      simp [hxc]
    · simp [hxc] at h

theorem basename_suffix (p : Path) : basename p <:+ p := by
  unfold basename
  cases h : breakLast '/' p with
  | none => exact List.suffix_rfl
  | some db =>
    obtain ⟨d, b⟩ := db
    have hp := breakLast_some '/' p d b h
    exact ⟨d ++ ['/'], by simp [hp]⟩

theorem append_eq_suffix {α : Type} : ∀ (t1 t2 l1 l2 : List α),
    t1 ++ l1 = t2 ++ l2 → l1 <:+ l2 ∨ l2 <:+ l1
| [], t2, l1, l2, h => Or.inr ⟨t2, h.symm⟩
| a :: t1, [], l1, l2, h => Or.inl ⟨a :: t1, h⟩
| a :: t1, b :: t2, l1, l2, h => by
  rw [List.cons_append, List.cons_append] at h
  injection h with h1 h2
  exact append_eq_suffix t1 t2 l1 l2 h2

theorem suffix_map {α β : Type} (f : α → β) {l1 l2 : List α} (h : l1 <:+ l2) :
    l1.map f <:+ l2.map f := by
  obtain ⟨t, ht⟩ := h
  exact ⟨t.map f, by rw [← List.map_append, ht]⟩

theorem txt_suffix_outPath (p : Path) : ".txt".toList <:+ outPath p :=
  ⟨(splitext p).1, rfl⟩

theorem supportedSuffix_ne_outPath (p q : Path) (h : supportedSuffix p = true) :
    p ≠ outPath q := by
  intro he
  have htxt : ".txt".toList <:+ p := by rw [he]; exact txt_suffix_outPath q
  unfold supportedSuffix at h
  obtain ⟨e, hmem, hsuf⟩ := List.any_eq_true.1 h
  have hsuf1 : e <:+ (basename p).map Char.toLower := by
    simpa [lowerP] using List.isSuffixOf_iff_suffix.1 hsuf
  have h1 : e <:+ p.map Char.toLower :=
    hsuf1.trans (suffix_map Char.toLower (basename_suffix p))
  have h2 : ".txt".toList <:+ p.map Char.toLower := by
    have hm := suffix_map Char.toLower htxt
    have hl : ".txt".toList.map Char.toLower = ".txt".toList := by decide
    rw [hl] at hm
    exact hm
  obtain ⟨t1, ht1⟩ := h1
  obtain ⟨t2, ht2⟩ := h2
  have hor := append_eq_suffix t1 t2 e (".txt".toList) (ht1.trans ht2.symm)
  simp [supportedExts] at hmem
  rcases hmem with rfl | rfl | rfl | rfl <;> rcases hor with h' | h' <;>
    revert h' <;> decide

theorem splitext_of_extname (p e : Path) (he : e ∈ supportedExts)
    (hb : basename p = e) : splitext p = (p, []) := by
  have hsb : splitBase e = (e, []) := by
    simp [supportedExts] at he
    rcases he with rfl | rfl | rfl | rfl <;> decide
  unfold splitext
  unfold basename at hb
  cases h : breakLast '/' p with
  | none =>
    rw [h] at hb
    subst hb
    exact hsb
  | some db =>
    obtain ⟨d, b⟩ := db
    rw [h] at hb
    subst hb
    have hp := breakLast_some '/' p d b h
    simp [hsb, hp]

/-! ## Dispatcher lemmas -/

theorem process_skip (fs : FS) (q : Path) (h1 : fs.exists q = true)
    (h2 : fs.exists (outPath q) = true) :
    process_file fs q = (fs, [.skip q (outPath q)]) := by
  unfold process_file
  simp [h1, h2]

theorem process_file_cases (fs : FS) (p : Path) :
    (process_file fs p).1 = fs ∨
    ∃ t, (process_file fs p).1 = fs.write (outPath p) (.txt t) := by
  unfold process_file
  repeat' split
  all_goals first
  | exact Or.inl rfl
  | exact Or.inr ⟨_, rfl⟩

theorem exists_process_mono (fs : FS) (p q : Path) (h : fs.exists q = true) :
    (process_file fs p).1.exists q = true := by
  rcases process_file_cases fs p with hc | ⟨t, hc⟩
  · rw [hc]; exact h
  · rw [hc]; exact FS.exists_write_mono _ _ _ _ h

theorem exists_process_new (fs : FS) (p q : Path) (hq : supportedSuffix q = true)
    (h : fs.exists q = false) : (process_file fs p).1.exists q = false := by
  rcases process_file_cases fs p with hc | ⟨t, hc⟩
  · rw [hc]; exact h
  · rw [hc, FS.exists_write_ne _ _ _ _ (supportedSuffix_ne_outPath q p hq)]
    exact h

theorem settled_after_self (fs : FS) (p : Path) : settled (process_file fs p).1 p := by
  unfold settled process_file
  cases h1 : fs.exists p
  · simp [h1]
  · cases h2 : fs.exists (outPath p)
    · by_cases h3 : extLower p = ".mhtml".toList
      · simp [h1, h2, h3, FS.exists_write_self]
      · by_cases h4 : extLower p = ".docx".toList
        · simp [h1, h2, h3, h4, FS.exists_write_self]
        · by_cases h5 : extLower p = ".md".toList
          · simp [h1, h2, h3, h4, h5, FS.exists_write_self]
          · by_cases h6 : extLower p = ".html".toList
            · simp [h1, h2, h3, h4, h5, h6, FS.exists_write_self]
            · simp only [supportedExts, List.mem_cons, not_or]
              simp at h3 h4 h5 h6
              simp [h1, h2, h3, h4, h5, h6]
    · simp [h1, h2]

theorem settled_mono (fs : FS) (p q : Path) (hq : supportedSuffix q = true)
    (h : settled fs q) : settled (process_file fs p).1 q := by
  rcases h with h | h | h
  · exact Or.inl (exists_process_new fs p q hq h)
  · exact Or.inr (Or.inl (exists_process_mono fs p (outPath q) h))
  · exact Or.inr (Or.inr h)

theorem process_settled (fs : FS) (p : Path) (h : settled fs p) :
    ∃ msg, process_file fs p = (fs, [msg]) ∧ isExtractionMsg msg = false := by
  rcases h with h | h | h
  · exact ⟨.missing p, by unfold process_file; simp [h], rfl⟩
  · cases h1 : fs.exists p
    · exact ⟨.missing p, by unfold process_file; simp [h1], rfl⟩
    · exact ⟨.skip p (outPath p), by unfold process_file; simp [h1, h], rfl⟩
  · cases h1 : fs.exists p
    · exact ⟨.missing p, by unfold process_file; simp [h1], rfl⟩
    · cases h2 : fs.exists (outPath p)
      · simp only [supportedExts, List.mem_cons, not_or] at h
        obtain ⟨e1, e2, e3, e4, -⟩ := h
        refine ⟨.unsupported p, ?_, rfl⟩
        unfold process_file
        simp at e1 e2 e3 e4
        simp [h1, h2, e1, e2, e3, e4]
      · exact ⟨.skip p (outPath p), by unfold process_file; simp [h1, h2], rfl⟩

/-! ## Batch lemmas -/

theorem settled_batch (ps : List Path) : ∀ (fs : FS) (q : Path),
    supportedSuffix q = true → settled fs q → settled (runBatch fs ps).1 q := by
  induction ps with
  | nil => intro fs q _ h; simpa [runBatch] using h
  | cons p ps ih =>
    intro fs q hq h
    simp only [runBatch]
    exact ih (process_file fs p).1 q hq (settled_mono fs p q hq h)

theorem batch_settles (ps : List Path) : ∀ (fs : FS) (p : Path),
    (∀ r ∈ ps, supportedSuffix r = true) → p ∈ ps →
    settled (runBatch fs ps).1 p := by
  induction ps with
  | nil => intro fs p _ h; cases h
  | cons r ps ih =>
    intro fs p hsup hp
    simp only [runBatch]
    rcases List.mem_cons.1 hp with rfl | hp'
    · exact settled_batch ps (process_file fs p).1 p (hsup p (by simp))
        (settled_after_self fs p)
    · exact ih (process_file fs r).1 p (fun x hx => hsup x (by simp [hx])) hp'

theorem batch_all_settled (ps : List Path) : ∀ (fs : FS),
    (∀ p ∈ ps, settled fs p) →
    (runBatch fs ps).1 = fs ∧ ∀ m ∈ (runBatch fs ps).2, isExtractionMsg m = false := by
  induction ps with
  | nil => intro fs _; exact ⟨rfl, by simp [runBatch]⟩
  | cons p ps ih =>
    intro fs h
    obtain ⟨msg, hm, hext⟩ := process_settled fs p (h p (by simp))
    have ih' := ih fs (fun q hq => h q (by simp [hq]))
    constructor
    · simp [runBatch, hm, ih'.1]
    · intro m hmem
      simp [runBatch, hm] at hmem
      rcases hmem with rfl | hmem
      · exact hext
      · exact ih'.2 m hmem

/-! ## Collection-loop lemmas -/

theorem collectParts_good : ∀ (l : List MimeMsg), l.all goodPart = true →
    collectParts l = .ok (l.flatMap collectTop)
| [], _ => rfl
| q :: qs, h => by
  rw [List.all_cons, Bool.and_eq_true] at h
  obtain ⟨hq, hqs⟩ := h
  have ih := collectParts_good qs hqs
  cases q with
  | part lf =>
    have hck : lf.charsetKnown = true := hq
    by_cases h1 : lf.contentType = "text/html"
    · simp [collectParts, contentTypeOf, h1, get_soup, hck, ih, collectTop, collectLeaf]
    · by_cases h2 : lf.contentType = "text/plain"
      · simp [collectParts, contentTypeOf, h1, h2, get_content, hck, ih, collectTop,
          collectLeaf]
      · simp [collectParts, contentTypeOf, h1, h2, ih, collectTop, collectLeaf]
  | multipart ct cs =>
    have hcs : ¬ (ct = "text/html") ∧ ¬ (ct = "text/plain") := by
      simpa [goodPart] using hq
    simp [collectParts, contentTypeOf, hcs.1, hcs.2, ih, collectTop]

theorem filterMap_leafOf_flatMap : ∀ (l : List MimeMsg),
    (l.filterMap leafOf).flatMap collectLeaf = l.flatMap collectTop
| [] => rfl
| q :: qs => by
  cases q <;> simp [leafOf, collectTop, filterMap_leafOf_flatMap qs]

theorem collectParts_bad : ∀ (l : List MimeMsg), l.any badPart = true →
    collectParts l = .error ()
| [], h => by simp at h
| q :: qs, h => by
  rw [List.any_cons, Bool.or_eq_true] at h
  cases h with
  | inl hb =>
    cases q with
    | part lf =>
      have hb' : (lf.contentType = "text/html" ∨ lf.contentType = "text/plain") ∧
          lf.charsetKnown = false := by simpa [badPart] using hb
      obtain ⟨hct, hck⟩ := hb'
      cases hct with
      | inl h1 => simp [collectParts, contentTypeOf, h1, get_soup, hck]
      | inr h2 => simp [collectParts, contentTypeOf, h2, get_content, hck]
    | multipart ct cs =>
      have hb' : ct = "text/html" ∨ ct = "text/plain" := by simpa [badPart] using hb
      cases hb' with
      | inl h1 => simp [collectParts, contentTypeOf, h1, get_soup]
      | inr h2 => simp [collectParts, contentTypeOf, h2, get_content]
  | inr ht =>
    have ih := collectParts_bad qs ht
    cases q with
    | part lf =>
      by_cases h1 : lf.contentType = "text/html"
      · cases hck : lf.charsetKnown
        · simp [collectParts, contentTypeOf, h1, get_soup, hck]
        · simp [collectParts, contentTypeOf, h1, get_soup, hck, ih]
      · by_cases h2 : lf.contentType = "text/plain"
        · cases hck : lf.charsetKnown
          · simp [collectParts, contentTypeOf, h1, h2, get_content, hck]
          · simp [collectParts, contentTypeOf, h1, h2, get_content, hck, ih]
        · simp [collectParts, contentTypeOf, h1, h2, ih]
    | multipart ct cs =>
      by_cases h1 : ct = "text/html"
      · simp [collectParts, contentTypeOf, h1, get_soup]
      · by_cases h2 : ct = "text/plain"
        · simp [collectParts, contentTypeOf, h1, h2, get_content]
        · simp [collectParts, contentTypeOf, h1, h2, ih]

/-! ## Script/style scrubbing lemmas -/

theorem strippedStrings_append : ∀ (a b : List HtmlNode),
    strippedStrings (a ++ b) = strippedStrings a ++ strippedStrings b
| [], b => by simp [strippedStrings]
| n :: ns, b => by simp [strippedStrings, strippedStrings_append ns b]

mutual

theorem strippedStringsN_remove : ∀ (n : HtmlNode),
    strippedStrings (removeScriptStyleN n) = strippedStringsN n
| .text s => by simp [removeScriptStyleN, strippedStrings, strippedStringsN]
| .elem tag cs => by
  by_cases h : tag = "script" ∨ tag = "style"
  · simp [removeScriptStyleN, strippedStrings, strippedStringsN, h]
  · simp [removeScriptStyleN, strippedStrings, strippedStringsN, h,
      strippedStrings_removeScriptStyle cs]

theorem strippedStrings_removeScriptStyle : ∀ (ns : List HtmlNode),
    strippedStrings (removeScriptStyle ns) = strippedStrings ns
| [] => by simp [removeScriptStyle, strippedStrings]
| n :: ns => by
  simp [removeScriptStyle, strippedStrings_append, strippedStringsN_remove n,
    strippedStrings_removeScriptStyle ns, strippedStrings]

end

mutual

theorem walk_scrubMsg : ∀ (m : MimeMsg), walk (scrubMsg m) = (walk m).map scrubTop
| .part l => by simp [walk, scrubMsg, scrubTop]
| .multipart ct cs => by
  simp [walk, scrubMsg, scrubTop, walkList_scrubList cs]

theorem walkList_scrubList : ∀ (ms : List MimeMsg),
    walkList (scrubList ms) = (walkList ms).map scrubTop
| [] => by simp [walkList, scrubList]
| m :: ms => by
  simp [walkList, scrubList, walk_scrubMsg m, walkList_scrubList ms]

end

theorem collectParts_scrub : ∀ (l : List MimeMsg),
    collectParts (l.map scrubTop) = collectParts l
| [] => rfl
| q :: qs => by
  have ih := collectParts_scrub qs
  cases q with
  | part lf =>
    by_cases h1 : lf.contentType = "text/html"
    · cases hck : lf.charsetKnown
      · simp [collectParts, contentTypeOf, scrubTop, scrubLeaf, h1, get_soup, hck]
      · simp [collectParts, contentTypeOf, scrubTop, scrubLeaf, h1, get_soup, hck, ih,
          get_text, strippedStrings_removeScriptStyle]
    · by_cases h2 : lf.contentType = "text/plain"
      · cases hck : lf.charsetKnown
        · simp [collectParts, contentTypeOf, scrubTop, scrubLeaf, h1, h2, get_content, hck]
        · simp [collectParts, contentTypeOf, scrubTop, scrubLeaf, h1, h2, get_content,
            hck, ih]
      · simp [collectParts, contentTypeOf, scrubTop, scrubLeaf, h1, h2, ih]
  | multipart ct cs =>
    by_cases h1 : ct = "text/html"
    · simp [collectParts, contentTypeOf, scrubTop, h1, get_soup]
    · by_cases h2 : ct = "text/plain"
      · simp [collectParts, contentTypeOf, scrubTop, h1, h2, get_content]
      · simp [collectParts, contentTypeOf, scrubTop, h1, h2, ih]

/-! ## Claims -/

/-- C2: when the sibling output file already exists, `process_file`
performs no extraction and leaves the file system — the existing output
file in particular — byte-for-byte unchanged; the only message is the
skip notice (or the missing-input error when the input is also absent). -/
theorem C2_existing_output_never_overwritten (fs : FS) (p : Path)
    (h : fs.exists (outPath p) = true) :
    (process_file fs p).1 = fs ∧
    ((process_file fs p).2 = [.missing p] ∨
      (process_file fs p).2 = [.skip p (outPath p)]) := by
  unfold process_file
  cases hx : fs.exists p
  · simp [hx]
  · simp [hx, h]

/-- C2 witness: `a.md` with `a.txt` already present is skipped. -/
theorem C2_witness :
    fs2.exists (outPath "a.md".toList) = true ∧
    (process_file fs2 "a.md".toList).1 = fs2 ∧
    (process_file fs2 "a.md".toList).2 =
      [.skip "a.md".toList (outPath "a.md".toList)] := by
  have h : fs2.exists (outPath "a.md".toList) = true := by decide
  exact ⟨h, (C2_existing_output_never_overwritten fs2 "a.md".toList h).1, by decide⟩

/-- C7: an existing input with an unsupported (lowercased) extension,
whose output does not already exist, gets an unsupported-type error and
nothing is written. -/
theorem C7_unsupported_extension (fs : FS) (p : Path)
    (hin : fs.exists p = true)
    (hout : fs.exists (outPath p) = false)
    (hext : extLower p ∉ supportedExts) :
    process_file fs p = (fs, [.unsupported p]) := by
  simp only [supportedExts, List.mem_cons, not_or] at hext
  obtain ⟨h1, h2, h3, h4, -⟩ := hext
  unfold process_file
  simp at h1 h2 h3 h4
  simp [hin, hout, h1, h2, h3, h4]

/-- C7 witness: `a.pdf` is reported unsupported, nothing written. -/
theorem C7_witness :
    process_file fs7 "a.pdf".toList = (fs7, [.unsupported "a.pdf".toList]) :=
  C7_unsupported_extension fs7 "a.pdf".toList (by decide) (by decide) (by decide)

/-- C4: the DOCX extractor joins the non-empty paragraph texts, in
document order, one per line: a paragraph whose stripped text is empty
is dropped entirely (removing it does not change the output), an
all-non-blank paragraph list is joined verbatim with single newlines,
and `["Title", "", "Body text"]` yields `"Title\nBody text"`. -/
theorem C4_docx_drops_blank_paragraphs :
    (∀ (pre post : List String) (t : String), pyStrip t = "" →
      extract_text_from_docx (some (pre ++ t :: post)) =
        extract_text_from_docx (some (pre ++ post))) ∧
    (∀ paras : List String, (∀ t ∈ paras, ¬ pyStrip t = "") →
      extract_text_from_docx (some paras) = String.intercalate "\n" paras) ∧
    extract_text_from_docx (some ["Title", "", "Body text"]) = "Title\nBody text" := by
  refine ⟨?_, ?_, by decide⟩
  · intro pre post t ht
    simp [extract_text_from_docx, List.filter_append, ht]
  · intro paras h
    have hf : paras.filter (fun t => !(pyStrip t == "")) = paras :=
      List.filter_eq_self.mpr (by intro a ha; simpa using h a ha)
    simp [extract_text_from_docx, hf]

/-- C4 witness: dropping the blank paragraph of the `["Title", "",
"Body text"]` document. -/
theorem C4_witness :
    extract_text_from_docx (some ["Title", "", "Body text"]) =
      extract_text_from_docx (some ["Title", "Body text"]) ∧
    extract_text_from_docx (some ["Title", "Body text"]) = "Title\nBody text" :=
  ⟨C4_docx_drops_blank_paragraphs.1 ["Title"] ["Body text"] "" rfl, by decide⟩

/-- C5: a failed parse yields the empty string rather than an exception
(MHTML and DOCX shown), and `process_file` still writes the — empty —
output file for such an input. -/
theorem C5_parse_failure_writes_empty_output :
    extract_text_from_mhtml none = "" ∧
    extract_text_from_docx none = "" ∧
    ∀ (fs : FS) (p : Path),
      fs.exists p = true → fs.exists (outPath p) = false →
      extLower p = ".mhtml".toList → readMhtml (fs.read p) = none →
      process_file fs p =
        (fs.write (outPath p) (.txt ""),
          [.processing "MHTML" p, .written (outPath p)]) ∧
      (fs.write (outPath p) (.txt "")).read (outPath p) = .txt "" := by
  refine ⟨rfl, rfl, ?_⟩
  intro fs p hin hout hext hread
  refine ⟨?_, FS.read_write_self fs (outPath p) (.txt "")⟩
  unfold process_file
  simp [hin, hout, hext, hread, extract_text_from_mhtml]

/-- C5 witness: the unparsable `a.mhtml` still gets an (empty) `a.txt`. -/
theorem C5_witness :
    process_file fs5 "a.mhtml".toList =
      (fs5.write (outPath "a.mhtml".toList) (.txt ""),
        [.processing "MHTML" "a.mhtml".toList, .written (outPath "a.mhtml".toList)]) :=
  (C5_parse_failure_writes_empty_output.2.2 fs5 "a.mhtml".toList
    (by decide) (by decide) (by decide) rfl).1

/-- C1: for a multipart message each of whose walked parts is benign
(every leaf decodable, every container of a non-text content type),
extraction visits the leaf parts in pre-order, collects `text/html`
parts stripped to block-separated lines, collects `text/plain` parts
verbatim, ignores every other content type, and returns the collected
fragments joined in traversal order with a blank line between them. -/
theorem C1_multipart_preorder_join (m : MimeMsg)
    (hm : isMultipart m = true)
    (hg : (walk m).all goodPart = true) :
    extract_text_from_mhtml (some m) =
      String.intercalate "\n\n" ((leaves m).flatMap collectLeaf) := by
  have h1 := collectParts_good (walk m) hg
  have h2 := filterMap_leafOf_flatMap (walk m)
  unfold extract_text_from_mhtml leaves
  simp [hm, h1, h2]

/-- C1 witness: the synthetic message with an HTML part
`<p>Hello</p><p>World</p>` and a plain part `Raw` yields the blocks
"Hello\nWorld" and "Raw", joined with a blank line, in part order. -/
theorem C1_witness :
    isMultipart exMsg1 = true ∧ (walk exMsg1).all goodPart = true ∧
    extract_text_from_mhtml (some exMsg1) = "Hello\nWorld\n\nRaw" := by
  have hm : isMultipart exMsg1 = true := rfl
  have hg : (walk exMsg1).all goodPart = true := by decide
  refine ⟨hm, hg, ?_⟩
  rw [C1_multipart_preorder_join exMsg1 hm hg]
  decide

/-- C6 (amended): decoding is best-effort only for known charsets — a
part whose charset names a known codec always decodes to its
replacement-decoded text and `get_content` never raises on it — but a
`text/html` or `text/plain` part whose charset is unknown raises, and
the extractor then returns the empty string for the whole file: parts
collected before or after it are discarded, not preserved. -/
theorem C6_unknown_charset_aborts_whole_file :
    (∀ l : Leaf, l.charsetKnown = true → get_content (.part l) = .ok l.text) ∧
    (∀ m : MimeMsg, isMultipart m = true → (walk m).any badPart = true →
      extract_text_from_mhtml (some m) = "") := by
  constructor
  · intro l h; simp [get_content, h]
  · intro m hm hb
    have h := collectParts_bad (walk m) hb
    unfold extract_text_from_mhtml
    simp [hm, h]

/-- C6 witness: `exMsg6` (a decodable part, an unknown-charset part, a
decodable part) extracts to the empty string. -/
theorem C6_witness :
    (walk exMsg6).any badPart = true ∧
    extract_text_from_mhtml (some exMsg6) = "" :=
  ⟨by decide, C6_unknown_charset_aborts_whole_file.2 exMsg6 rfl (by decide)⟩

/-- C6 counterexample to the claim as stated: in `exMsg6` the first and
third parts are decodable (contents "A" and "C"), yet because the
middle part's charset is unknown the whole file's extraction is the
empty string — the decodable parts do NOT appear in the result. -/
theorem C6_counterexample :
    extract_text_from_mhtml (some exMsg6) = "" ∧
    (extract_text_from_mhtml (some exMsg6)).data.contains 'A' = false ∧
    (extract_text_from_mhtml (some exMsg6)).data.contains 'C' = false := by
  refine ⟨by decide, by decide, by decide⟩

/-- C3: the shared HTML-to-text stripping never includes the textual
content of `script`/`style` elements: removing those elements
(bs4's `decompose` idiom) changes nothing about the output of
`get_text`, of the HTML and Markdown extractors, or of MHTML
extraction; and a `script` or `style` element contributes no collected
string at all, whatever its content. -/
theorem C3_script_style_never_included :
    (∀ (sep : String) (doc : List HtmlNode),
      get_text sep (removeScriptStyle doc) = get_text sep doc) ∧
    (∀ doc : List HtmlNode,
      extract_text_from_html (removeScriptStyle doc) = extract_text_from_html doc) ∧
    (∀ doc : List HtmlNode,
      extract_text_from_md (removeScriptStyle doc) = extract_text_from_md doc) ∧
    (∀ m : MimeMsg,
      extract_text_from_mhtml (some (scrubMsg m)) = extract_text_from_mhtml (some m)) ∧
    (∀ (cs ns : List HtmlNode),
      strippedStrings (.elem "script" cs :: ns) = strippedStrings ns ∧
      strippedStrings (.elem "style" cs :: ns) = strippedStrings ns) := by
  have hget : ∀ (sep : String) (doc : List HtmlNode),
      get_text sep (removeScriptStyle doc) = get_text sep doc := by
    intro sep doc
    simp [get_text, strippedStrings_removeScriptStyle]
  refine ⟨hget, fun doc => hget "\n" doc, fun doc => hget "\n" doc, ?_, ?_⟩
  · intro m
    cases m with
    | part lf =>
      by_cases h1 : lf.contentType = "text/html"
      · cases hck : lf.charsetKnown
        · simp [extract_text_from_mhtml, scrubMsg, scrubLeaf, isMultipart, contentTypeOf,
            h1, get_soup, hck]
        · simp [extract_text_from_mhtml, scrubMsg, scrubLeaf, isMultipart, contentTypeOf,
            h1, get_soup, hck, hget]
      · by_cases h2 : lf.contentType = "text/plain"
        · cases hck : lf.charsetKnown <;>
            simp [extract_text_from_mhtml, scrubMsg, scrubLeaf, isMultipart,
              contentTypeOf, h1, h2, get_content, hck]
        · cases hck : lf.charsetKnown <;>
            simp [extract_text_from_mhtml, scrubMsg, scrubLeaf, isMultipart,
              contentTypeOf, h1, h2, get_content, hck]
    | multipart ct cs =>
      have hw : walk (scrubMsg (.multipart ct cs)) =
          (walk (.multipart ct cs)).map scrubTop := walk_scrubMsg _
      have hc := collectParts_scrub (walk (.multipart ct cs))
      simp [extract_text_from_mhtml, scrubMsg, isMultipart] at hw ⊢
      rw [hw, hc]
  · intro cs ns
    constructor <;> simp [strippedStrings, strippedStringsN]

/-- C8 counterexample to the claim as stated: a directory containing
only a regular file named `.md` is enumerated by the scanner, but the
first run performs no extraction and writes no output (`splitext`
yields an empty extension, so the file is an unsupported type), and the
second run reports the same unsupported-type error instead of a skip —
extraction does not happen "exactly once per file". -/
theorem C8_counterexample :
    find_supported_files fs8 = [".md".toList] ∧
    runBatch fs8 [".md".toList] = (fs8, [.unsupported ".md".toList]) ∧
    (runBatch fs8 [".md".toList]).1.exists (outPath ".md".toList) = false ∧
    (runBatch (runBatch fs8 [".md".toList]).1 [".md".toList]).2 =
      [.unsupported ".md".toList] :=
  ⟨rfl, rfl, rfl, rfl⟩

/-- C8 (amended): over the files the scanner enumerates, a second run
of the batch performs no extraction at all and modifies no file — each
enumerated file is extracted at most once across the two runs (files
that were skipped, missing, or of unsupported type are extracted zero
times and re-reported, not skipped-because-written). -/
theorem C8_second_run_extracts_nothing (fs : FS) (ps : List Path)
    (hps : ps = find_supported_files fs) :
    (runBatch (runBatch fs ps).1 ps).1 = (runBatch fs ps).1 ∧
    ∀ m ∈ (runBatch (runBatch fs ps).1 ps).2, isExtractionMsg m = false := by
  have hsup : ∀ p ∈ ps, supportedSuffix p = true := by
    intro p hp
    rw [hps] at hp
    exact (List.mem_filter.1 hp).2
  have hset : ∀ p ∈ ps, settled (runBatch fs ps).1 p :=
    fun p hp => batch_settles ps fs p hsup hp
  exact batch_all_settled ps (runBatch fs ps).1 hset

/-- C8 witness: for the directory holding only `b.md`, the second run
leaves the file system unchanged and only reports a skip. -/
theorem C8_witness :
    (runBatch (runBatch fs8b ["b.md".toList]).1 ["b.md".toList]).1 =
      (runBatch fs8b ["b.md".toList]).1 ∧
    (runBatch (runBatch fs8b ["b.md".toList]).1 ["b.md".toList]).2 =
      [.skip "b.md".toList (outPath "b.md".toList)] :=
  ⟨(C8_second_run_extracts_nothing fs8b ["b.md".toList] (by decide)).1, by decide⟩

/-- C9: two distinct inputs whose paths share the same stem map to the
same output path; once processing the first has written that output,
`process_file` on the second is a pure skip — the second file's content
never reaches any output file. -/
theorem C9_colliding_outputs (fs : FS) (p q : Path)
    (hstem : (splitext p).1 = (splitext q).1)
    (hp : fs.exists p = true) (hq : fs.exists q = true)
    (hout : fs.exists (outPath p) = false)
    (hext : extLower p ∈ supportedExts) :
    outPath q = outPath p ∧
    (process_file fs p).1.exists (outPath q) = true ∧
    process_file (process_file fs p).1 q =
      ((process_file fs p).1, [.skip q (outPath q)]) := by
  have hoo : outPath q = outPath p := by unfold outPath; rw [hstem]
  have hw : ∃ t, (process_file fs p).1 = fs.write (outPath p) (.txt t) := by
    simp only [supportedExts, List.mem_cons, not_or] at hext
    unfold process_file
    rcases hext with h | h | h | h | h
    · simp [hp, hout, h]
      exact ⟨_, rfl⟩
    · simp [hp, hout, h]
      exact ⟨_, rfl⟩
    · simp [hp, hout, h]
      exact ⟨_, rfl⟩
    · simp [hp, hout, h]
      exact ⟨_, rfl⟩
    · cases h
  obtain ⟨t, ht⟩ := hw
  have ho1 : (process_file fs p).1.exists (outPath q) = true := by
    rw [hoo, ht]
    exact FS.exists_write_self fs (outPath p) (.txt t)
  have hq1 : (process_file fs p).1.exists q = true := exists_process_mono fs p q hq
  exact ⟨hoo, ho1, process_skip (process_file fs p).1 q hq1 ho1⟩

/-- C9 witness: `a.md` and `a.html` both map to `a.txt`; after `a.md`
is processed, `a.html` is skipped. -/
theorem C9_witness :
    outPath "a.html".toList = outPath "a.md".toList ∧
    (process_file fs9 "a.md".toList).1.exists (outPath "a.html".toList) = true ∧
    process_file (process_file fs9 "a.md".toList).1 "a.html".toList =
      ((process_file fs9 "a.md".toList).1,
        [.skip "a.html".toList (outPath "a.html".toList)]) :=
  C9_colliding_outputs fs9 "a.md".toList "a.html".toList
    (by decide) (by decide) (by decide) (by decide) (by decide)

/-- C10: a regular file whose entire name is one of the supported
extensions is enumerated by the scanner as a supported file, but
`splitext` gives it an empty extension, so `process_file` classifies it
as an unsupported type and writes nothing (its would-be output absent). -/
theorem C10_dotfile_unsupported (fs : FS) (p e : Path)
    (he : e ∈ supportedExts) (hb : basename p = e)
    (hin : fs.exists p = true)
    (hout : fs.exists (p ++ ".txt".toList) = false) :
    p ∈ find_supported_files fs ∧ splitext p = (p, []) ∧
    process_file fs p = (fs, [.unsupported p]) := by
  have hsplit : splitext p = (p, []) := splitext_of_extname p e he hb
  have hop : outPath p = p ++ ".txt".toList := by unfold outPath; rw [hsplit]
  have hext : extLower p = [] := by unfold extLower; rw [hsplit]; rfl
  refine ⟨?_, hsplit, ?_⟩
  · apply List.mem_filter.2
    constructor
    · unfold FS.exists at hin
      simp only [List.any_eq_true, beq_iff_eq] at hin
      obtain ⟨a, ha, hae⟩ := hin
      exact List.mem_map.2 ⟨a, ha, hae⟩
    · unfold supportedSuffix
      apply List.any_eq_true.2
      refine ⟨e, he, ?_⟩
      rw [hb]
      simp [supportedExts] at he
      rcases he with rfl | rfl | rfl | rfl <;> decide
  · unfold process_file
    rw [hext, hop]
    simp at hout
    simp [hin, hout]

/-- C10 witness: the file named `.mhtml` is enumerated but reported
unsupported, with nothing written. -/
theorem C10_witness :
    ".mhtml".toList ∈ find_supported_files fs10 ∧
    splitext ".mhtml".toList = (".mhtml".toList, []) ∧
    process_file fs10 ".mhtml".toList = (fs10, [.unsupported ".mhtml".toList]) :=
  C10_dotfile_unsupported fs10 ".mhtml".toList ".mhtml".toList
    (by decide) (by decide) (by decide) (by decide)

end ExtractText
